import Mathlib

/-!
Verification of the curve-matching core of `mains.py` / `processors.py`.

The embedding models the pandas/numpy semantics actually exercised by the
program: DataFrame columns are rational-valued lists sharing a positional
(range) index, subtraction of two columns aligns positionally and pads the
tail of the shorter column with NaN, `Series.sum` skips NaN entries, and
`np.max` on a Series delegates to `Series.max`, which also skips NaN and
yields NaN on an empty (or all-NaN) series.  NaN-or-number values are
modelled as `Option ℚ` (with `none` playing the role of NaN); Python
exceptions are modelled with `Except PyError`.
-/

set_option maxRecDepth 4000

namespace IUAssign

/-- Python-level exception kinds relevant to the pipeline.  `keyError`,
`indexError` and `dataValidationError` are the ones the program can actually
raise; the remaining constructors name the failure conditions described in
the design document, so that statements about them can be expressed. -/
inductive PyError where
  | keyError
  | indexError
  | dataValidationError
  | dimensionMismatch
  | noCandidatesAvailable
  | unknownX
deriving DecidableEq

deriving instance DecidableEq for Except

/-- Positionally aligned subtraction of two pandas Series with default range
indexes: entries beyond the shorter series become NaN (`none`). -/
def alignSub : List ℚ → List ℚ → List (Option ℚ)
  | [], l2 => l2.map (fun _ => none)
  | _ :: t1, [] => none :: alignSub t1 []
  | a :: t1, b :: t2 => some (a - b) :: alignSub t1 t2

/-- Series.sum with the default skipna=True: NaN entries are dropped and the
empty sum is 0. -/
def seriesSum (entries : List (Option ℚ)) : ℚ :=
  (entries.filterMap id).sum

/-- Absolute value on ℚ (`np.abs`), written so that it evaluates by cases on
the sign; equal to `|q|` (see `ratAbs_eq_abs`). -/
def ratAbs (q : ℚ) : ℚ := if q < 0 then -q else q

/-- Binary maximum on ℚ, written so that it evaluates by comparison; equal
to `max` (see `ratMax_eq_max`). -/
def ratMax (a b : ℚ) : ℚ := if a ≤ b then b else a

/-- Series.max with the default skipna=True (what `np.max` delegates to on a
Series): NaN entries are dropped; an empty or all-NaN series yields NaN. -/
def seriesMax (entries : List (Option ℚ)) : Option ℚ :=
  match entries.filterMap id with
  | [] => none
  | v :: vs => some (vs.foldl ratMax v)

/-- MathEngine.calculate_least_squares: `((train_y - ideal_y) ** 2).sum()`. -/
def calculate_least_squares (train_y ideal_y : List ℚ) : ℚ :=
  seriesSum ((alignSub train_y ideal_y).map (Option.map (fun d => d * d)))

/-- The IEEE double-precision value of `np.sqrt(2)`, as an exact rational. -/
def sqrt2Q : ℚ := 6369051672525773 / 4503599627370496

/-- MathEngine.get_threshold:
`np.max(np.abs(train_y - ideal_y)) * np.sqrt(2)`.  The result is NaN
(`none`) exactly when the max is taken over an empty or all-NaN series. -/
def get_threshold (train_y ideal_y : List ℚ) : Option ℚ :=
  (seriesMax ((alignSub train_y ideal_y).map (Option.map ratAbs))).map
    (fun m => m * sqrt2Q)

/-- The in-memory tables `run_assignment` works with: `train j` is column
`y j` of train.csv, `ideal j` is column `y j` of ideal.csv (`none` when the
column is absent, which in Python raises KeyError on access), `idealX` is
the x column of ideal.csv, and `test` is the list of (x, y) rows of
test.csv. -/
structure AssignmentData where
  train : ℕ → List ℚ
  ideal : ℕ → Option (List ℚ)
  idealX : List ℚ
  test : List (ℚ × ℚ)

/-- The SSE score the selection loop computes for training column `i` and
ideal column `j` (meaningful when column `j` is present). -/
def sseAt (data : AssignmentData) (i j : ℕ) : ℚ :=
  calculate_least_squares (data.train i) ((data.ideal j).getD [])

/-- One iteration of the candidate-selection loop: access the ideal column
(KeyError if absent), compute the SSE, and replace the tracked best on a
strictly lower SSE.  The `none` state models `best_fit_name = None` together
with `min_sse = inf`, against which any SSE compares strictly lower. -/
def scanBody (data : AssignmentData) (i : ℕ) (st : Option (ℕ × ℚ)) (j : ℕ) :
    Except PyError (Option (ℕ × ℚ)) :=
  match data.ideal j with
  | none => Except.error PyError.keyError
  | some ys =>
    let s := calculate_least_squares (data.train i) ys
    match st with
    | none => Except.ok (some (j, s))
    | some bm =>
      if s < bm.2 then Except.ok (some (j, s)) else Except.ok (some bm)

/-- The inner candidate-selection loop of `run_assignment` for training
column `i` over the given candidate labels (the code scans `range(1, 51)`). -/
def scanCandidates (data : AssignmentData) (i : ℕ) (labels : List ℕ) :
    Except PyError (Option (ℕ × ℚ)) :=
  labels.foldlM (scanBody data i) none

/-- The outer selection loop: for each training column 1..4, record the
chosen ideal-column label (`selected_ideals[train_col] = best_fit_name`). -/
def selectIdeals (data : AssignmentData) (labels : List ℕ) :
    Except PyError (List (ℕ × Option ℕ)) :=
  (List.range' 1 4).foldlM (fun acc i => do
    let r ← scanCandidates data i labels
    pure (acc ++ [(i, r.map Prod.fst)])) []

/-- The value lookup `ideal_df.loc[ideal_df['x'] == x, col].values[0]` for a
present column `ys`: the column value on the first row whose x equals `x`,
or `none` (IndexError in Python) when no row matches. -/
def lookupTestY (data : AssignmentData) (x : ℚ) (ys : List ℚ) : Option ℚ :=
  ((data.idealX.zip ys).find? (fun q => decide (q.1 = x))).map Prod.snd

/-- One iteration of the per-test-point loop over `selected_ideals.items()`:
access the chosen ideal column (KeyError when the label is None or the
column is absent), look the point's x up (IndexError when absent), compute
the deviation and the threshold, and update the tracked best mapping when
the point qualifies (`deviation <= threshold`) and strictly improves.
A NaN threshold compares False in Python, so it never qualifies. -/
def mapBody (data : AssignmentData) (x y : ℚ) (st : Option (ℕ × ℚ))
    (p : ℕ × Option ℕ) : Except PyError (Option (ℕ × ℚ)) :=
  match p.2 with
  | none => Except.error PyError.keyError
  | some j =>
    match data.ideal j with
    | none => Except.error PyError.keyError
    | some ys =>
      match lookupTestY data x ys with
      | none => Except.error PyError.indexError
      | some iy =>
        let dev := ratAbs (y - iy)
        let thr := get_threshold (data.train p.1) ys
        let q : Bool := match thr with
          | none => false
          | some t => decide (dev ≤ t)
        if q then
          match st with
          | none => Except.ok (some (j, dev))
          | some bm =>
            if dev < bm.2 then Except.ok (some (j, dev)) else Except.ok (some bm)
        else Except.ok st

/-- The per-test-point mapping loop body of `run_assignment` (lines 58-72):
returns the final `(best_map, min_deviation)` state, `none` standing for an
unassigned point. -/
def mapPoint (data : AssignmentData) (sel : List (ℕ × Option ℕ)) (x y : ℚ) :
    Except PyError (Option (ℕ × ℚ)) :=
  sel.foldlM (mapBody data x y) none

/-- A row of `test_results_list`:
`{'x': x, 'y': y, 'delta_y': min_deviation, 'ideal_function_no': best_map}`. -/
structure ResultRow where
  x : ℚ
  y : ℚ
  delta_y : ℚ
  ideal_function_no : ℕ
deriving DecidableEq

/-- The mapping loop over all test rows: a row is appended only when
`best_map` is set (`if best_map:`); unassigned points append nothing. -/
def mapTestData (data : AssignmentData) (sel : List (ℕ × Option ℕ)) :
    Except PyError (List ResultRow) :=
  data.test.foldlM (fun acc pt => do
    let r ← mapPoint data sel pt.1 pt.2
    match r with
    | some bd => pure (acc ++ [ResultRow.mk pt.1 pt.2 bd.2 bd.1])
    | none => pure acc) []

/-- The computational content of `run_assignment`'s try block: selection over
candidate labels 1..50, then the test-data mapping loop. -/
def run_core (data : AssignmentData) : Except PyError (List ResultRow) := do
  let sel ← selectIdeals data (List.range' 1 50)
  mapTestData data sel

/-- run_assignment with its `except Exception` clause: any exception from the
pipeline is re-raised as DataValidationError. -/
def run_assignment (data : AssignmentData) : Except PyError (List ResultRow) :=
  match run_core data with
  | Except.ok r => Except.ok r
  | Except.error _ => Except.error PyError.dataValidationError

/-- One step of the generic first-seen argmin fold: replace the tracked best
only on a strictly smaller score.  `none` models the `(None, inf)` initial
state of both loops. -/
def argminStep {α : Type} (g : α → ℚ) (st : Option (α × ℚ)) (a : α) :
    Option (α × ℚ) :=
  match st with
  | none => some (a, g a)
  | some bm => if g a < bm.2 then some (a, g a) else some bm

/-- Generic first-seen argmin over a list: the common shape of the candidate
scan and of the per-point qualification scan. -/
def argminFold {α : Type} (g : α → ℚ) (l : List α) : Option (α × ℚ) :=
  l.foldl (argminStep g) none

/-- Projection from the specification-level fold state (full selection entry,
deviation) to the state the code tracks (ideal label, deviation). -/
def projLabel (bm : (ℕ × Option ℕ) × ℚ) : ℕ × ℚ :=
  (bm.1.2.getD 0, bm.2)

/-- The ideal column a selection entry refers to (`none` when the recorded
label is None or the column is absent). -/
def selEntryCol (data : AssignmentData) (p : ℕ × Option ℕ) : Option (List ℚ) :=
  p.2.bind data.ideal

/-- The looked-up ideal y-value of a selection entry at a test x. -/
def entryLook (data : AssignmentData) (x : ℚ) (p : ℕ × Option ℕ) : Option ℚ :=
  (selEntryCol data p).bind (lookupTestY data x)

/-- The deviation `abs(y_val - ideal_y)` of a test point against a selection
entry (meaningful when the lookup succeeds). -/
def devAt (data : AssignmentData) (x y : ℚ) (p : ℕ × Option ℕ) : ℚ :=
  ratAbs (y - (entryLook data x p).getD 0)

/-- The threshold the mapping loop computes for a selection entry. -/
def thrAt (data : AssignmentData) (p : ℕ × Option ℕ) : Option ℚ :=
  (selEntryCol data p).bind (fun ys => get_threshold (data.train p.1) ys)

/-- The qualification test of the mapping loop: `deviation <= threshold`,
with a NaN threshold comparing False. -/
def qualifiesB (data : AssignmentData) (x y : ℚ) (p : ℕ × Option ℕ) : Bool :=
  match thrAt data p with
  | none => false
  | some t => decide (devAt data x y p ≤ t)

/-- Modelled from the spec (§4.3 step 3 and §4.4): the per-test-point loop
body when each Selection carries a threshold computed once, after the
candidate scan, instead of recomputing it from the raw series; identical to
`mapBody` except that the threshold is read from the entry. -/
def mapBodyPre (data : AssignmentData) (x y : ℚ) (st : Option (ℕ × ℚ))
    (pt : (ℕ × Option ℕ) × Option ℚ) : Except PyError (Option (ℕ × ℚ)) :=
  match pt.1.2 with
  | none => Except.error PyError.keyError
  | some j =>
    match data.ideal j with
    | none => Except.error PyError.keyError
    | some ys =>
      match lookupTestY data x ys with
      | none => Except.error PyError.indexError
      | some iy =>
        let dev := ratAbs (y - iy)
        let q : Bool := match pt.2 with
          | none => false
          | some t => decide (dev ≤ t)
        if q then
          match st with
          | none => Except.ok (some (j, dev))
          | some bm =>
            if dev < bm.2 then Except.ok (some (j, dev)) else Except.ok (some bm)
        else Except.ok st

/-- Modelled from the spec (§4.3 step 3): each Selection's threshold,
computed once from the fixed training and chosen ideal series. -/
def precomputeThresholds (data : AssignmentData) (sel : List (ℕ × Option ℕ)) :
    List ((ℕ × Option ℕ) × Option ℚ) :=
  sel.map (fun p => (p, thrAt data p))

/-- Modelled from the spec (§4.4): per-point mapping over the Selections
with their precomputed thresholds. -/
def mapPointPre (data : AssignmentData)
    (selThr : List ((ℕ × Option ℕ) × Option ℚ)) (x y : ℚ) :
    Except PyError (Option (ℕ × ℚ)) :=
  selThr.foldlM (mapBodyPre data x y) none

/-- Modelled from the spec (§4.4): the full mapping pass reusing the
precomputed thresholds for every test point. -/
def mapTestDataPre (data : AssignmentData) (sel : List (ℕ × Option ℕ)) :
    Except PyError (List ResultRow) :=
  data.test.foldlM (fun acc pt => do
    let r ← mapPointPre data (precomputeThresholds data sel) pt.1 pt.2
    match r with
    | some bd => pure (acc ++ [ResultRow.mk pt.1 pt.2 bd.2 bd.1])
    | none => pure acc) []

/-- Concrete data for exercising the candidate scan: all 50 ideal columns
present and equal, so every candidate ties and the scan must keep label 1. -/
def D1 : AssignmentData :=
  AssignmentData.mk (fun _ => [0]) (fun _ => some [1]) [0] []

/-- Concrete data for exercising the mapping loop on a qualifying point. -/
def D2 : AssignmentData :=
  AssignmentData.mk (fun _ => [0]) (fun j => some [(j : ℚ)]) [0] [(0, 1)]

/-- The selection-pair list used with `D2`. -/
def S2 : List (ℕ × Option ℕ) := [(1, some 1), (2, some 2)]

/-- Concrete data witnessing a test point that no selection admits: the
threshold is 0 (identical series) while the point deviates by 5. -/
def D3 : AssignmentData :=
  AssignmentData.mk (fun _ => [0, 0]) (fun _ => some [0, 0]) [0, 1] [(0, 5)]

/-- The selection-pair list used with `D3`. -/
def S3 : List (ℕ × Option ℕ) := [(1, some 1)]

/-- Concrete data whose first test point has an x (5) absent from the ideal
x-grid ([0]) while its second test point maps fine. -/
def D6 : AssignmentData :=
  AssignmentData.mk (fun _ => [0]) (fun j => some [(j : ℚ)]) [0] [(5, 1), (0, 1)]

/-- `D6` with only the well-behaved second test point. -/
def D6single : AssignmentData :=
  AssignmentData.mk (fun _ => [0]) (fun j => some [(j : ℚ)]) [0] [(0, 1)]

/-- Concrete data modelling an empty candidate pool: ideal.csv has no y
columns at all, so every column access raises KeyError. -/
def D7 : AssignmentData :=
  AssignmentData.mk (fun _ => [0]) (fun _ => none) [0] []

/-- A one-entry selection list used with `D6`. -/
def S6 : List (ℕ × Option ℕ) := [(1, some 1)]

theorem ratAbs_eq_abs (q : ℚ) : ratAbs q = |q| := by
  unfold ratAbs
  rcases lt_or_ge q 0 with h | h
  · rw [if_pos h, abs_of_neg h]
  · rw [if_neg (not_lt.mpr h), abs_of_nonneg h]

theorem ratMax_eq_max (a b : ℚ) : ratMax a b = max a b := by
  simp [ratMax, max_def]

theorem alignSub_filterMap (f : ℚ → ℚ) :
    ∀ (l1 l2 : List ℚ),
      ((alignSub l1 l2).map (Option.map f)).filterMap id
        = (l1.zip l2).map (fun p => f (p.1 - p.2))
  | [], l2 => by
      induction l2 with
      | nil => rfl
      | cons b t ih => simp [alignSub]
  | a :: t1, [] => by
      simpa [alignSub] using alignSub_filterMap f t1 []
  | a :: t1, b :: t2 => by
      simpa [alignSub] using alignSub_filterMap f t1 t2

theorem calculate_least_squares_zip (a b : List ℚ) :
    calculate_least_squares a b
      = ((a.zip b).map (fun p => (p.1 - p.2) * (p.1 - p.2))).sum := by
  simpa [calculate_least_squares, seriesSum] using
    congrArg List.sum (alignSub_filterMap (fun d => d * d) a b)

theorem foldl_ratMax_eq_foldl_max (vs : List ℚ) (v : ℚ) :
    vs.foldl ratMax v = vs.foldl max v := by
  induction vs generalizing v with
  | nil => rfl
  | cons u t ih => simp [List.foldl_cons, ratMax_eq_max, ih]

theorem foldl_max_mem (vs : List ℚ) (v : ℚ) : vs.foldl max v ∈ v :: vs := by
  induction vs generalizing v with
  | nil => simp
  | cons u t ih =>
      rcases List.mem_cons.mp (ih (max v u)) with h | h
      · rw [List.foldl_cons, h]
        rcases max_choice v u with h2 | h2 <;> rw [h2] <;> simp
      · simp [List.foldl_cons, List.mem_cons, h]

theorem le_foldl_max : ∀ (vs : List ℚ) (v w : ℚ), w ∈ v :: vs → w ≤ vs.foldl max v
  | [], v, w, hw => le_of_eq (by simpa using hw)
  | u :: t, v, w, hw => by
      have hrec : max v u ≤ t.foldl max (max v u) :=
        le_foldl_max t (max v u) (max v u) (List.mem_cons_self _ _)
      rw [List.foldl_cons]
      rcases List.mem_cons.mp hw with h | h
      · rw [h]; exact le_trans (le_max_left v u) hrec
      · rcases List.mem_cons.mp h with h2 | h2
        · rw [h2]; exact le_trans (le_max_right v u) hrec
        · exact le_foldl_max t (max v u) w (List.mem_cons_of_mem _ h2)

theorem zip_self_fst_eq_snd : ∀ (l : List ℚ) (p : ℚ × ℚ), p ∈ l.zip l → p.1 = p.2
  | [], p, h => by simp at h
  | x :: t, p, h => by
      rcases List.mem_cons.mp h with h2 | h2
      · rw [h2]
      · exact zip_self_fst_eq_snd t p h2

theorem eq_of_zip_pointwise :
    ∀ (a b : List ℚ), a.length = b.length → (∀ p ∈ a.zip b, p.1 = p.2) → a = b
  | [], [], _, _ => rfl
  | [], _ :: _, h, _ => by simp at h
  | _ :: _, [], h, _ => by simp at h
  | x :: t1, y :: t2, h, hp => by
      have hx : x = y := hp (x, y) (List.mem_cons_self _ _)
      have ht : t1 = t2 :=
        eq_of_zip_pointwise t1 t2 (by simpa using h)
          (fun p hm => hp p (List.mem_cons_of_mem _ hm))
      rw [hx, ht]

theorem zip_take_eq :
    ∀ (a b : List ℚ), (a.take b.length).zip (b.take a.length) = a.zip b
  | [], b => by simp
  | a :: t1, [] => by simp
  | a :: t1, b :: t2 => by
      simpa [List.take] using zip_take_eq t1 t2

theorem argminFold_from {α : Type} (g : α → ℚ) :
    ∀ (l : List α) (b : α) (m : ℚ), g b = m →
      ∃ bm : α × ℚ, l.foldl (argminStep g) (some (b, m)) = some bm ∧
        g bm.1 = bm.2 ∧ bm.2 ≤ m ∧ (∀ a ∈ l, bm.2 ≤ g a) ∧
        (b :: l).find? (fun a => decide (g a = bm.2)) = some bm.1
  | [], b, m, hb =>
      ⟨(b, m), rfl, hb, le_refl m, by simp,
        List.find?_cons_of_pos _ (by simp [hb])⟩
  | x :: xs, b, m, hb => by
      rw [List.foldl_cons]
      by_cases hlt : g x < m
      · have step : argminStep g (some (b, m)) x = some (x, g x) := by
          simp [argminStep, hlt]
        rw [step]
        obtain ⟨bm, hfold, hg, hle, hall, hfind⟩ := argminFold_from g xs x (g x) rfl
        refine ⟨bm, hfold, hg, le_trans hle (le_of_lt hlt), ?_, ?_⟩
        · intro a ha
          rcases List.mem_cons.mp ha with h | h
          · rw [h]; exact hle
          · exact hall a h
        · have hbne : ¬ (g b = bm.2) := by
            rw [hb]
            exact ne_of_gt (lt_of_le_of_lt hle hlt)
          rw [List.find?_cons_of_neg _ (by simp [hbne])]
          exact hfind
      · have step : argminStep g (some (b, m)) x = some (b, m) := by
          simp [argminStep, hlt]
        rw [step]
        obtain ⟨bm, hfold, hg, hle, hall, hfind⟩ := argminFold_from g xs b m hb
        refine ⟨bm, hfold, hg, hle, ?_, ?_⟩
        · intro a ha
          rcases List.mem_cons.mp ha with h | h
          · rw [h]; exact le_trans hle (not_lt.mp hlt)
          · exact hall a h
        · by_cases hbeq : g b = bm.2
          · have h1 : (b :: x :: xs).find? (fun a => decide (g a = bm.2)) = some b :=
              List.find?_cons_of_pos _ (by simp [hbeq])
            have h2 : (b :: xs).find? (fun a => decide (g a = bm.2)) = some b :=
              List.find?_cons_of_pos _ (by simp [hbeq])
            rw [h1, h2.symm.trans hfind]
          · have hxne : ¬ (g x = bm.2) := by
              intro hx
              have h5 : m = bm.2 := le_antisymm (hx ▸ not_lt.mp hlt) hle
              exact hbeq (hb.trans h5)
            rw [List.find?_cons_of_neg _ (by simp [hbeq]),
              List.find?_cons_of_neg _ (by simp [hxne])]
            rw [List.find?_cons_of_neg _ (by simp [hbeq])] at hfind
            exact hfind

theorem argminFold_spec {α : Type} (g : α → ℚ) (l : List α) (hl : l ≠ []) :
    ∃ bm : α × ℚ, argminFold g l = some bm ∧ g bm.1 = bm.2 ∧
      (∀ a ∈ l, bm.2 ≤ g a) ∧
      l.find? (fun a => decide (g a = bm.2)) = some bm.1 := by
  match l, hl with
  | x :: xs, _ =>
    obtain ⟨bm, hfold, hg, hle, hall, hfind⟩ := argminFold_from g xs x (g x) rfl
    refine ⟨bm, ?_, hg, ?_, hfind⟩
    · unfold argminFold
      rw [List.foldl_cons]
      exact hfold
    · intro a ha
      rcases List.mem_cons.mp ha with h | h
      · rw [h]; exact hle
      · exact hall a h

theorem find?_first_le (p : ℕ → Bool) :
    ∀ (l : List ℕ), l.Pairwise (· < ·) → ∀ b, l.find? p = some b →
      ∀ j ∈ l, p j = true → b ≤ j
  | [], _, b, hfind => by simp at hfind
  | x :: xs, hpw, b, hfind => by
      intro j hj hpj
      rcases List.pairwise_cons.mp hpw with ⟨hxlt, hpw2⟩
      by_cases hpx : p x = true
      · rw [List.find?_cons_of_pos _ hpx] at hfind
        injection hfind with hb
        rcases List.mem_cons.mp hj with h | h
        · rw [← hb, h]
        · rw [← hb]; exact le_of_lt (hxlt j h)
      · rw [List.find?_cons_of_neg _ (by simp [hpx])] at hfind
        rcases List.mem_cons.mp hj with h | h
        · rw [h] at hpj; exact absurd hpj (by simp [hpx])
        · exact find?_first_le p xs hpw2 b hfind j h hpj

theorem scanBody_ok (data : AssignmentData) (i : ℕ) (st : Option (ℕ × ℚ)) (j : ℕ)
    (ys : List ℚ) (hj : data.ideal j = some ys) :
    scanBody data i st j = Except.ok (argminStep (sseAt data i) st j) := by
  cases st <;>
    simp [scanBody, argminStep, sseAt, hj, apply_ite Except.ok]

theorem scanCandidates_from (data : AssignmentData) (i : ℕ) :
    ∀ (labels : List ℕ) (st : Option (ℕ × ℚ)),
      (∀ j ∈ labels, (data.ideal j).isSome) →
      labels.foldlM (scanBody data i) st
        = Except.ok (labels.foldl (argminStep (sseAt data i)) st)
  | [], st, _ => rfl
  | j :: rest, st, hall => by
      obtain ⟨ys, hys⟩ :=
        Option.isSome_iff_exists.mp (hall j (List.mem_cons_self _ _))
      rw [List.foldlM_cons, scanBody_ok data i st j ys hys]
      rw [List.foldl_cons]
      exact scanCandidates_from data i rest _
        (fun a ha => hall a (List.mem_cons_of_mem _ ha))

theorem scanCandidates_eq_argmin (data : AssignmentData) (i : ℕ)
    (labels : List ℕ) (hall : ∀ j ∈ labels, (data.ideal j).isSome) :
    scanCandidates data i labels = Except.ok (argminFold (sseAt data i) labels) :=
  scanCandidates_from data i labels none hall

theorem except_bind_ok {ε α β : Type} (a : α) (f : α → Except ε β) :
    (Except.ok a >>= f) = f a := rfl

theorem except_bind_error {ε α β : Type} (e : ε) (f : α → Except ε β) :
    ((Except.error e : Except ε α) >>= f) = Except.error e := rfl

theorem mapBody_ok (data : AssignmentData) (x y : ℚ)
    (st : Option ((ℕ × Option ℕ) × ℚ)) (p : ℕ × Option ℕ)
    (h : (entryLook data x p).isSome = true) :
    mapBody data x y (st.map projLabel) p
      = Except.ok ((if qualifiesB data x y p then argminStep (devAt data x y) st p
          else st).map projLabel) := by
  cases hp2 : p.2 with
  | none =>
      rw [entryLook, selEntryCol, hp2] at h
      simp at h
  | some j =>
      cases hys : data.ideal j with
      | none =>
          rw [entryLook, selEntryCol, hp2] at h
          simp [hys] at h
      | some ys =>
          cases hiy : lookupTestY data x ys with
          | none =>
              rw [entryLook, selEntryCol, hp2] at h
              simp [hys, hiy] at h
          | some iy =>
              have hlook : entryLook data x p = some iy := by
                rw [entryLook, selEntryCol, hp2]
                simp [hys, hiy]
              have hdev : devAt data x y p = ratAbs (y - iy) := by
                rw [devAt, hlook, Option.getD_some]
              have hthr : thrAt data p = get_threshold (data.train p.1) ys := by
                rw [thrAt, selEntryCol, hp2]
                simp [hys]
              simp only [mapBody, hp2, hys, hiy, qualifiesB, hthr, hdev]
              cases hgt : get_threshold (data.train p.1) ys with
              | none => cases st <;> simp
              | some t =>
                  by_cases hle : ratAbs (y - iy) ≤ t
                  · simp only [hle, decide_eq_true_eq, if_pos, decide_True]
                    cases st with
                    | none => simp [argminStep, projLabel, hp2, hdev]
                    | some bm =>
                        by_cases hlt : ratAbs (y - iy) < bm.2
                        · simp [argminStep, projLabel, hp2, hdev, hlt]
                        · simp [argminStep, projLabel, hp2, hdev, hlt]
                  · simp [hle]

theorem mapPoint_from (data : AssignmentData) (x y : ℚ) :
    ∀ (sel : List (ℕ × Option ℕ)) (st : Option ((ℕ × Option ℕ) × ℚ)),
      (∀ p ∈ sel, (entryLook data x p).isSome = true) →
      sel.foldlM (mapBody data x y) (st.map projLabel)
        = Except.ok (((sel.filter (qualifiesB data x y)).foldl
            (argminStep (devAt data x y)) st).map projLabel)
  | [], st, _ => rfl
  | p :: rest, st, hall => by
      rw [List.foldlM_cons,
        mapBody_ok data x y st p (hall p (List.mem_cons_self _ _)),
        except_bind_ok]
      by_cases hq : qualifiesB data x y p
      · rw [if_pos hq, List.filter_cons_of_pos (by simpa using hq), List.foldl_cons]
        exact mapPoint_from data x y rest (argminStep (devAt data x y) st p)
          (fun a ha => hall a (List.mem_cons_of_mem _ ha))
      · rw [if_neg hq, List.filter_cons_of_neg (by simpa using hq)]
        exact mapPoint_from data x y rest st
          (fun a ha => hall a (List.mem_cons_of_mem _ ha))

theorem mapPoint_eq_argmin (data : AssignmentData) (sel : List (ℕ × Option ℕ))
    (x y : ℚ) (hall : ∀ p ∈ sel, (entryLook data x p).isSome = true) :
    mapPoint data sel x y
      = Except.ok ((argminFold (devAt data x y)
          (sel.filter (qualifiesB data x y))).map projLabel) := by
  have h := mapPoint_from data x y sel none hall
  simpa [mapPoint, argminFold] using h

/-- Generalized accumulator form of the mapping loop: a successful run
appends, after the accumulator, exactly the rows of the qualifying points in
order, and nothing for unassigned points. -/
theorem mapTestData_from (data : AssignmentData) (sel : List (ℕ × Option ℕ)) :
    ∀ (pts : List (ℚ × ℚ)) (acc rows : List ResultRow),
      pts.foldlM (fun acc pt => do
          let r ← mapPoint data sel pt.1 pt.2
          match r with
          | some bd => pure (acc ++ [ResultRow.mk pt.1 pt.2 bd.2 bd.1])
          | none => pure acc) acc = Except.ok rows →
      rows = acc ++ pts.filterMap (fun pt =>
        match mapPoint data sel pt.1 pt.2 with
        | Except.ok (some bd) => some (ResultRow.mk pt.1 pt.2 bd.2 bd.1)
        | _ => none)
  | [], acc, rows, h => by
      injection h with h2
      simp [h2]
  | pt :: rest, acc, rows, h => by
      rw [List.foldlM_cons] at h
      cases hmp : mapPoint data sel pt.1 pt.2 with
      | error e =>
          rw [hmp] at h
          simp [except_bind_error] at h
      | ok r =>
          rw [hmp, except_bind_ok] at h
          cases r with
          | some bd =>
              have hrec := mapTestData_from data sel rest
                (acc ++ [ResultRow.mk pt.1 pt.2 bd.2 bd.1]) rows (by exact h)
              rw [hrec]
              simp [List.filterMap_cons, hmp]
          | none =>
              have hrec := mapTestData_from data sel rest acc rows (by exact h)
              rw [hrec]
              simp [List.filterMap_cons, hmp]

theorem mapTestData_rows (data : AssignmentData) (sel : List (ℕ × Option ℕ))
    (rows : List ResultRow) (h : mapTestData data sel = Except.ok rows) :
    rows = data.test.filterMap (fun pt =>
      match mapPoint data sel pt.1 pt.2 with
      | Except.ok (some bd) => some (ResultRow.mk pt.1 pt.2 bd.2 bd.1)
      | _ => none) := by
  have h2 := mapTestData_from data sel data.test [] rows (by rw [← mapTestData]; exact h)
  simpa using h2

theorem mapTestData_error_of_point (data : AssignmentData)
    (sel : List (ℕ × Option ℕ)) :
    ∀ (pre : List (ℚ × ℚ)) (acc : List ResultRow) (x y : ℚ)
      (post : List (ℚ × ℚ)) (e : PyError),
      (∀ pt ∈ pre, ∃ r, mapPoint data sel pt.1 pt.2 = Except.ok r) →
      mapPoint data sel x y = Except.error e →
      (pre ++ (x, y) :: post).foldlM (fun acc pt => do
          let r ← mapPoint data sel pt.1 pt.2
          match r with
          | some bd => pure (acc ++ [ResultRow.mk pt.1 pt.2 bd.2 bd.1])
          | none => pure acc) acc = Except.error e
  | [], acc, x, y, post, e, _, herr => by
      rw [List.nil_append, List.foldlM_cons, herr, except_bind_error,
        except_bind_error]
  | pt :: pre, acc, x, y, post, e, hpre, herr => by
      obtain ⟨r, hr⟩ := hpre pt (List.mem_cons_self _ _)
      rw [List.cons_append, List.foldlM_cons, hr, except_bind_ok]
      cases r with
      | some bd =>
          exact mapTestData_error_of_point data sel pre _ x y post e
            (fun a ha => hpre a (List.mem_cons_of_mem _ ha)) herr
      | none =>
          exact mapTestData_error_of_point data sel pre _ x y post e
            (fun a ha => hpre a (List.mem_cons_of_mem _ ha)) herr

theorem sqrt2Q_pos : 0 < sqrt2Q := by norm_num [sqrt2Q]

theorem get_threshold_cons_char (a b : List ℚ) (v : ℚ) (vs : List ℚ)
    (h : (a.zip b).map (fun p => ratAbs (p.1 - p.2)) = v :: vs) :
    get_threshold a b = some (vs.foldl ratMax v * sqrt2Q) := by
  unfold get_threshold seriesMax
  rw [alignSub_filterMap ratAbs a b, h]
  rfl

theorem get_threshold_nil_char (a b : List ℚ)
    (h : (a.zip b).map (fun p => ratAbs (p.1 - p.2)) = []) :
    get_threshold a b = none := by
  unfold get_threshold seriesMax
  rw [alignSub_filterMap ratAbs a b, h]
  rfl

theorem get_threshold_some_nonneg (a b : List ℚ) (t : ℚ)
    (h : get_threshold a b = some t) : 0 ≤ t := by
  cases hz : (a.zip b).map (fun p => ratAbs (p.1 - p.2)) with
  | nil => rw [get_threshold_nil_char a b hz] at h; cases h
  | cons v vs =>
      rw [get_threshold_cons_char a b v vs hz] at h
      injection h with h2
      rw [← h2]
      have hmem : vs.foldl ratMax v ∈ v :: vs := by
        rw [foldl_ratMax_eq_foldl_max]
        exact foldl_max_mem vs v
      rw [← hz] at hmem
      obtain ⟨p, _, hp⟩ := List.mem_map.mp hmem
      have h0 : 0 ≤ vs.foldl ratMax v := by
        rw [← hp, ratAbs_eq_abs]
        exact abs_nonneg _
      exact mul_nonneg h0 (le_of_lt sqrt2Q_pos)

theorem ratAbs_zero : ratAbs 0 = 0 := by simp [ratAbs]

/-- Claim C4: for equal-length (nonempty, so that np.max is defined) aligned
series, get_threshold returns the maximum over all aligned points of
|train_i - candidate_i|, multiplied by sqrt 2, and that value is 0 exactly
when the two series are pointwise identical. -/
theorem C4_threshold_scaled_max (a b : List ℚ)
    (hlen : a.length = b.length) (hne : a ≠ []) :
    ∃ t, get_threshold a b = some t ∧
      (∃ p ∈ a.zip b, t = |p.1 - p.2| * sqrt2Q) ∧
      (∀ p ∈ a.zip b, |p.1 - p.2| * sqrt2Q ≤ t) ∧
      (t = 0 ↔ a = b) := by
  obtain ⟨pa, ta, ha⟩ := List.exists_cons_of_ne_nil hne
  have hbne : b ≠ [] := by
    intro hb
    rw [ha, hb] at hlen
    simp at hlen
  obtain ⟨pb, tb, hb2⟩ := List.exists_cons_of_ne_nil hbne
  have hzcons : (a.zip b).map (fun p => ratAbs (p.1 - p.2))
      = ratAbs (pa - pb) :: (ta.zip tb).map (fun p => ratAbs (p.1 - p.2)) := by
    rw [ha, hb2]
    rfl
  have hgt := get_threshold_cons_char a b _ _ hzcons
  have hmem : ((ta.zip tb).map (fun p => ratAbs (p.1 - p.2))).foldl ratMax
      (ratAbs (pa - pb)) ∈ (a.zip b).map (fun p => ratAbs (p.1 - p.2)) := by
    rw [hzcons, foldl_ratMax_eq_foldl_max]
    exact foldl_max_mem _ _
  have hub : ∀ p ∈ a.zip b, ratAbs (p.1 - p.2)
      ≤ ((ta.zip tb).map (fun p => ratAbs (p.1 - p.2))).foldl ratMax
          (ratAbs (pa - pb)) := by
    intro p hp
    have hm : ratAbs (p.1 - p.2)
        ∈ ratAbs (pa - pb) :: (ta.zip tb).map (fun p => ratAbs (p.1 - p.2)) := by
      rw [← hzcons]
      exact List.mem_map_of_mem _ hp
    rw [foldl_ratMax_eq_foldl_max]
    exact le_foldl_max _ _ _ hm
  obtain ⟨pm, hpmem, hpm⟩ := List.mem_map.mp hmem
  refine ⟨_, hgt, ⟨pm, hpmem, by rw [← hpm, ratAbs_eq_abs]⟩, ?_, ?_⟩
  · intro p hp
    rw [← ratAbs_eq_abs]
    exact mul_le_mul_of_nonneg_right (hub p hp) (le_of_lt sqrt2Q_pos)
  · constructor
    · intro ht0
      have hM0 : ((ta.zip tb).map (fun p => ratAbs (p.1 - p.2))).foldl ratMax
          (ratAbs (pa - pb)) = 0 := by
        rcases mul_eq_zero.mp ht0 with h | h
        · exact h
        · exact absurd h (ne_of_gt sqrt2Q_pos)
      apply eq_of_zip_pointwise a b hlen
      intro p hp
      have h1 := hub p hp
      rw [hM0] at h1
      have h2 : 0 ≤ ratAbs (p.1 - p.2) := by
        rw [ratAbs_eq_abs]
        exact abs_nonneg _
      have h3 : ratAbs (p.1 - p.2) = 0 := le_antisymm h1 h2
      rw [ratAbs_eq_abs] at h3
      exact sub_eq_zero.mp (abs_eq_zero.mp h3)
    · intro hab
      have hall0 : ∀ w ∈ (a.zip b).map (fun p => ratAbs (p.1 - p.2)), w = 0 := by
        intro w hw
        obtain ⟨p, hp, hpw⟩ := List.mem_map.mp hw
        rw [hab] at hp
        have hps := zip_self_fst_eq_snd b p hp
        rw [← hpw, hps, sub_self, ratAbs_zero]
      rw [hall0 _ hmem, zero_mul]

/-- Claim C4 witness: instance of the theorem at the concrete aligned pair
[0, 1] and [1, 1]. -/
theorem C4_witness :
    ([0, 1] : List ℚ).length = ([1, 1] : List ℚ).length ∧
      ([0, 1] : List ℚ) ≠ [] ∧
      (∃ t, get_threshold [0, 1] [1, 1] = some t ∧
        (∃ p ∈ ([0, 1] : List ℚ).zip [1, 1], t = |p.1 - p.2| * sqrt2Q) ∧
        (∀ p ∈ ([0, 1] : List ℚ).zip [1, 1], |p.1 - p.2| * sqrt2Q ≤ t) ∧
        (t = 0 ↔ ([0, 1] : List ℚ) = [1, 1])) :=
  ⟨rfl, by simp, C4_threshold_scaled_max [0, 1] [1, 1] rfl (by simp)⟩

/-- Claim C5 fails on the code: with unequal-length inputs, neither
calculate_least_squares nor get_threshold raises anything (there is no
DimensionMismatch condition in the program); pandas aligns the series,
pads with NaN, and both operations return a value. -/
theorem C5_counterexample :
    ([1, 2] : List ℚ).length ≠ ([5] : List ℚ).length ∧
      calculate_least_squares [1, 2] [5] = 16 ∧
      (get_threshold [1, 2] [5]).isSome = true :=
  ⟨by simp, by with_unfolding_all decide, by with_unfolding_all decide⟩

/-- Claim C5 amended: neither operation checks lengths nor raises a
DimensionMismatch condition; on inputs of any (in particular unequal)
lengths both operations behave exactly as on the truncation of each series
to the common overlap, because the NaN padding of pandas alignment is
skipped by the sum and by the max. -/
theorem C5_amended (a b : List ℚ) :
    calculate_least_squares a b
        = calculate_least_squares (a.take b.length) (b.take a.length) ∧
      get_threshold a b = get_threshold (a.take b.length) (b.take a.length) := by
  constructor
  · rw [calculate_least_squares_zip, calculate_least_squares_zip, zip_take_eq]
  · unfold get_threshold seriesMax
    rw [alignSub_filterMap, alignSub_filterMap, zip_take_eq]

/-- Claim C8 fails on the empty series: sse([], []) is 0 as claimed, but
threshold([], []) is NaN (np.max over an empty series), not 0. -/
theorem C8_counterexample :
    get_threshold ([] : List ℚ) [] = none ∧
      get_threshold ([] : List ℚ) [] ≠ some 0 ∧
      calculate_least_squares ([] : List ℚ) [] = 0 := by
  refine ⟨rfl, fun h => ?_, rfl⟩
  rw [show get_threshold ([] : List ℚ) [] = none from rfl] at h
  exact Option.noConfusion h

/-- Claim C8 amended: sse(s, s) = 0 for every series; threshold(s, s) = 0
for every nonempty series (on the empty series it is NaN); sse is always
nonnegative; and every numeric value threshold returns is nonnegative. -/
theorem C8_amended :
    (∀ s : List ℚ, calculate_least_squares s s = 0) ∧
      (∀ s : List ℚ, s ≠ [] → get_threshold s s = some 0) ∧
      (∀ a b : List ℚ, 0 ≤ calculate_least_squares a b) ∧
      (∀ a b : List ℚ, ∀ t, get_threshold a b = some t → 0 ≤ t) := by
  refine ⟨?_, ?_, ?_, fun a b t h => get_threshold_some_nonneg a b t h⟩
  · intro s
    rw [calculate_least_squares_zip]
    apply List.sum_eq_zero
    intro w hw
    obtain ⟨p, hp, hpw⟩ := List.mem_map.mp hw
    rw [← hpw, zip_self_fst_eq_snd s p hp, sub_self, mul_zero]
  · intro s hs
    obtain ⟨x, t2, hx⟩ := List.exists_cons_of_ne_nil hs
    have hzcons : (s.zip s).map (fun p => ratAbs (p.1 - p.2))
        = ratAbs (x - x) :: (t2.zip t2).map (fun p => ratAbs (p.1 - p.2)) := by
      rw [hx]
      rfl
    rw [get_threshold_cons_char s s _ _ hzcons]
    have hall0 : ∀ w ∈ (s.zip s).map (fun p => ratAbs (p.1 - p.2)), w = 0 := by
      intro w hw
      obtain ⟨p, hp, hpw⟩ := List.mem_map.mp hw
      rw [← hpw, zip_self_fst_eq_snd s p hp, sub_self, ratAbs_zero]
    have hmem : ((t2.zip t2).map (fun p => ratAbs (p.1 - p.2))).foldl ratMax
        (ratAbs (x - x)) ∈ (s.zip s).map (fun p => ratAbs (p.1 - p.2)) := by
      rw [hzcons, foldl_ratMax_eq_foldl_max]
      exact foldl_max_mem _ _
    rw [hall0 _ hmem, zero_mul]
  · intro a b
    rw [calculate_least_squares_zip]
    apply List.sum_nonneg
    intro w hw
    obtain ⟨p, hp, hpw⟩ := List.mem_map.mp hw
    rw [← hpw]
    exact mul_self_nonneg _

/-- Claim C8 witness: instances of the amended theorem at concrete series. -/
theorem C8_witness :
    (([2] : List ℚ) ≠ []) ∧ calculate_least_squares ([2] : List ℚ) [2] = 0 ∧
      get_threshold ([2] : List ℚ) [2] = some 0 ∧
      0 ≤ calculate_least_squares ([1] : List ℚ) [3] ∧
      get_threshold ([1] : List ℚ) [3] = some (ratAbs (1 - 3) * sqrt2Q) ∧
      0 ≤ ratAbs (1 - 3) * sqrt2Q :=
  ⟨by simp, C8_amended.1 [2], C8_amended.2.1 [2] (by simp),
    C8_amended.2.2.1 [1] [3],
    get_threshold_cons_char [1] [3] _ [] rfl,
    C8_amended.2.2.2 [1] [3] _ (get_threshold_cons_char [1] [3] _ [] rfl)⟩

/-- Claim C1: with all 50 ideal columns present, the candidate the selection
loop keeps for training column `i` is a global SSE minimizer over labels
1..50, and on an exact SSE tie the lower label is kept, because replacement
requires a strictly lower SSE. -/
theorem C1_selection_global_minimizer (data : AssignmentData) (i : ℕ)
    (hall : ∀ j ∈ List.range' 1 50, (data.ideal j).isSome) :
    ∃ bm : ℕ × ℚ,
      scanCandidates data i (List.range' 1 50) = Except.ok (some bm) ∧
      bm.1 ∈ List.range' 1 50 ∧ sseAt data i bm.1 = bm.2 ∧
      (∀ j ∈ List.range' 1 50, bm.2 ≤ sseAt data i j) ∧
      (∀ j ∈ List.range' 1 50, sseAt data i j = bm.2 → bm.1 ≤ j) := by
  obtain ⟨bm, hfold, hg, hmin, hfind⟩ :=
    argminFold_spec (sseAt data i) (List.range' 1 50) (by decide)
  refine ⟨bm, ?_, List.mem_of_find?_eq_some hfind, hg, hmin, ?_⟩
  · rw [scanCandidates_eq_argmin data i _ hall, hfold]
  · intro j hj hje
    exact find?_first_le _ (List.range' 1 50) (by decide) bm.1 hfind j hj
      (by simp [hje])

/-- Claim C1 witness: the theorem applied to concrete data in which all 50
candidates tie; the selection keeps label 1. -/
theorem C1_witness :
    (∀ j ∈ List.range' 1 50, (D1.ideal j).isSome) ∧
      ∃ bm : ℕ × ℚ,
        scanCandidates D1 1 (List.range' 1 50) = Except.ok (some bm) ∧
        bm.1 ∈ List.range' 1 50 ∧ sseAt D1 1 bm.1 = bm.2 ∧
        (∀ j ∈ List.range' 1 50, bm.2 ≤ sseAt D1 1 j) ∧
        (∀ j ∈ List.range' 1 50, sseAt D1 1 j = bm.2 → bm.1 ≤ j) :=
  ⟨by decide, C1_selection_global_minimizer D1 1 (by decide)⟩

/-- Claim C2: when every selection entry's column and lookup succeed for a
test point, the point qualifies for an entry exactly when its deviation is
at most (inclusively) that entry's threshold; with no qualifying entry the
loop returns None, and otherwise it returns the label of a qualifying entry
of globally minimal deviation, the first one scanned attaining that
minimum, because replacement requires a strictly smaller deviation. -/
theorem C2_point_assignment (data : AssignmentData) (sel : List (ℕ × Option ℕ))
    (x y : ℚ) (hall : ∀ p ∈ sel, (entryLook data x p).isSome = true) :
    (∀ p ∈ sel, qualifiesB data x y p = true
        ↔ ∃ t, thrAt data p = some t ∧ devAt data x y p ≤ t) ∧
      (sel.filter (qualifiesB data x y) = [] →
        mapPoint data sel x y = Except.ok none) ∧
      (sel.filter (qualifiesB data x y) ≠ [] →
        ∃ bm : (ℕ × Option ℕ) × ℚ,
          mapPoint data sel x y = Except.ok (some (projLabel bm)) ∧
          bm.1 ∈ sel.filter (qualifiesB data x y) ∧
          devAt data x y bm.1 = bm.2 ∧
          (∀ p ∈ sel.filter (qualifiesB data x y), bm.2 ≤ devAt data x y p) ∧
          (sel.filter (qualifiesB data x y)).find?
            (fun p => decide (devAt data x y p = bm.2)) = some bm.1) := by
  refine ⟨?_, ?_, ?_⟩
  · intro p hp
    unfold qualifiesB
    cases h : thrAt data p with
    | none => simp
    | some t => simp
  · intro hemp
    rw [mapPoint_eq_argmin data sel x y hall, hemp]
    rfl
  · intro hne
    obtain ⟨bm, hfold, hg, hmin, hfind⟩ :=
      argminFold_spec (devAt data x y) (sel.filter (qualifiesB data x y)) hne
    refine ⟨bm, ?_, List.mem_of_find?_eq_some hfind, hg, hmin, hfind⟩
    rw [mapPoint_eq_argmin data sel x y hall, hfold]
    rfl

/-- Claim C2 witness: the theorem applied to concrete data with two
selection entries, both qualifying, with deviations 0 and 1. -/
theorem C2_witness :
    (∀ p ∈ S2, (entryLook D2 0 p).isSome = true) ∧
      ((∀ p ∈ S2, qualifiesB D2 0 1 p = true
          ↔ ∃ t, thrAt D2 p = some t ∧ devAt D2 0 1 p ≤ t) ∧
        (S2.filter (qualifiesB D2 0 1) = [] →
          mapPoint D2 S2 0 1 = Except.ok none) ∧
        (S2.filter (qualifiesB D2 0 1) ≠ [] →
          ∃ bm : (ℕ × Option ℕ) × ℚ,
            mapPoint D2 S2 0 1 = Except.ok (some (projLabel bm)) ∧
            bm.1 ∈ S2.filter (qualifiesB D2 0 1) ∧
            devAt D2 0 1 bm.1 = bm.2 ∧
            (∀ p ∈ S2.filter (qualifiesB D2 0 1), bm.2 ≤ devAt D2 0 1 p) ∧
            (S2.filter (qualifiesB D2 0 1)).find?
              (fun p => decide (devAt D2 0 1 p = bm.2)) = some bm.1)) :=
  ⟨by with_unfolding_all decide,
    C2_point_assignment D2 S2 0 1 (by with_unfolding_all decide)⟩

/-- Claim C3 fails on the code: a processed test point for which no
selection qualifies produces no output row at all (the loop only appends
when `best_map` is set); there is no explicit "unassigned" record. -/
theorem C3_counterexample :
    D3.test.length = 1 ∧ mapTestData D3 S3 = Except.ok [] :=
  ⟨rfl, by with_unfolding_all decide⟩

/-- Claim C3 amended: each successfully processed test point yields at most
one row: exactly one row when some selection qualifies, and no row (the
point is silently dropped, with no "unassigned" record) when none does. -/
theorem C3_amended (data : AssignmentData) (sel : List (ℕ × Option ℕ))
    (rows : List ResultRow) (h : mapTestData data sel = Except.ok rows) :
    rows = data.test.filterMap (fun pt =>
      match mapPoint data sel pt.1 pt.2 with
      | Except.ok (some bd) => some (ResultRow.mk pt.1 pt.2 bd.2 bd.1)
      | _ => none) :=
  mapTestData_rows data sel rows h

/-- Claim C3 witness: the amended theorem applied to the concrete run in
which the single test point qualifies for no selection and the emitted row
set is empty. -/
theorem C3_witness :
    mapTestData D3 S3 = Except.ok [] ∧
      ([] : List ResultRow) = D3.test.filterMap (fun pt =>
        match mapPoint D3 S3 pt.1 pt.2 with
        | Except.ok (some bd) => some (ResultRow.mk pt.1 pt.2 bd.2 bd.1)
        | _ => none) :=
  ⟨by with_unfolding_all decide,
    C3_amended D3 S3 [] (by with_unfolding_all decide)⟩

theorem lookupTestY_none (data : AssignmentData) (x : ℚ) (ys : List ℚ)
    (hx : x ∉ data.idealX) : lookupTestY data x ys = none := by
  unfold lookupTestY
  have hfind : (data.idealX.zip ys).find? (fun q => decide (q.1 = x)) = none := by
    apply List.find?_eq_none.mpr
    intro q hq
    obtain ⟨q1, q2⟩ := q
    simp only [decide_eq_true_eq]
    intro hqx
    exact hx (hqx ▸ (List.of_mem_zip hq).1)
  rw [hfind]
  rfl

theorem mapBody_indexError (data : AssignmentData) (x y : ℚ)
    (st : Option (ℕ × ℚ)) (p : ℕ × Option ℕ) (j : ℕ) (ys : List ℚ)
    (hj : p.2 = some j) (hys : data.ideal j = some ys)
    (hlook : lookupTestY data x ys = none) :
    mapBody data x y st p = Except.error PyError.indexError := by
  simp [mapBody, hj, hys, hlook]

/-- Claim C6 fails on the code: a test x absent from the ideal grid makes
`.values[0]` raise IndexError (there is no UnknownX condition), the whole
mapping loop aborts — the well-behaved second point is never processed and
no results are produced — and run_assignment re-raises the failure as
DataValidationError; the same data restricted to the good point maps fine. -/
theorem C6_counterexample :
    run_assignment D6 = Except.error PyError.dataValidationError ∧
      run_core D6 = Except.error PyError.indexError ∧
      PyError.indexError ≠ PyError.unknownX ∧
      D6.test.length = 2 ∧
      run_assignment D6single = Except.ok [ResultRow.mk 0 1 0 1] :=
  ⟨by with_unfolding_all decide, by with_unfolding_all decide, by decide,
    rfl, by with_unfolding_all decide⟩

/-- Claim C6 amended: when a test point's x is absent from the ideal x-grid
(and the first selection entry's column is present), that point's lookup
fails with IndexError, the entire mapping loop aborts with that error (test
points after the failing one are never processed and no rows are produced),
and run_assignment turns any such failure into DataValidationError. -/
theorem C6_amended (data : AssignmentData) (sel : List (ℕ × Option ℕ))
    (p0 : ℕ × Option ℕ) (rest : List (ℕ × Option ℕ)) (hsel : sel = p0 :: rest)
    (j : ℕ) (ys : List ℚ) (hj : p0.2 = some j) (hys : data.ideal j = some ys)
    (x y : ℚ) (hx : x ∉ data.idealX)
    (pre post : List (ℚ × ℚ)) (htest : data.test = pre ++ (x, y) :: post)
    (hpre : ∀ pt ∈ pre, ∃ r, mapPoint data sel pt.1 pt.2 = Except.ok r) :
    mapPoint data sel x y = Except.error PyError.indexError ∧
      mapTestData data sel = Except.error PyError.indexError ∧
      (∀ d : AssignmentData, ∀ e : PyError, run_core d = Except.error e →
        run_assignment d = Except.error PyError.dataValidationError) := by
  have hmp : mapPoint data sel x y = Except.error PyError.indexError := by
    rw [hsel]
    unfold mapPoint
    rw [List.foldlM_cons,
      mapBody_indexError data x y none p0 j ys hj hys
        (lookupTestY_none data x ys hx),
      except_bind_error]
  refine ⟨hmp, ?_, ?_⟩
  · unfold mapTestData
    rw [htest]
    exact mapTestData_error_of_point data sel pre [] x y post
      PyError.indexError hpre hmp
  · intro d e h
    unfold run_assignment
    rw [h]

/-- Claim C6 witness: the amended theorem applied to the concrete data D6
whose first test point has x = 5 while the ideal grid is [0]. -/
theorem C6_witness :
    ((5 : ℚ) ∉ D6.idealX) ∧
      (mapPoint D6 S6 5 1 = Except.error PyError.indexError ∧
        mapTestData D6 S6 = Except.error PyError.indexError ∧
        (∀ d : AssignmentData, ∀ e : PyError, run_core d = Except.error e →
          run_assignment d = Except.error PyError.dataValidationError)) :=
  ⟨by with_unfolding_all decide,
    C6_amended D6 S6 (1, some 1) [] rfl 1 [1] rfl
      (by with_unfolding_all decide) 5 1 (by with_unfolding_all decide)
      [] [(0, 1)] rfl (by intro pt hpt; simp at hpt)⟩

/-- Claim C7 fails on the code: with an empty candidate pool (no ideal y
columns), the first column access raises KeyError, re-raised by
run_assignment as DataValidationError; no NoCandidatesAvailable condition
exists or is raised. -/
theorem C7_counterexample :
    selectIdeals D7 (List.range' 1 50) = Except.error PyError.keyError ∧
      run_assignment D7 = Except.error PyError.dataValidationError ∧
      PyError.dataValidationError ≠ PyError.noCandidatesAvailable :=
  ⟨by with_unfolding_all decide, by with_unfolding_all decide, by decide⟩

/-- Claim C7 amended: an empty candidate pool (all 50 ideal columns absent)
makes the selection loop abort on its first column access with KeyError —
so selection does abort rather than continue, but with KeyError wrapped
into DataValidationError, not with a NoCandidatesAvailable condition. -/
theorem C7_amended (data : AssignmentData)
    (h : ∀ j ∈ List.range' 1 50, data.ideal j = none) :
    selectIdeals data (List.range' 1 50) = Except.error PyError.keyError ∧
      run_assignment data = Except.error PyError.dataValidationError := by
  have h1 : data.ideal 1 = none := h 1 (by decide)
  have hscan : scanCandidates data 1 (List.range' 1 50)
      = Except.error PyError.keyError := by
    unfold scanCandidates
    rw [show List.range' 1 50 = 1 :: List.range' 2 49 from rfl,
      List.foldlM_cons,
      show scanBody data 1 none 1 = Except.error PyError.keyError from by
        simp [scanBody, h1],
      except_bind_error]
  have hsel : selectIdeals data (List.range' 1 50)
      = Except.error PyError.keyError := by
    unfold selectIdeals
    rw [show List.range' 1 4 = 1 :: List.range' 2 3 from rfl, List.foldlM_cons]
    simp only [hscan, except_bind_error]
  refine ⟨hsel, ?_⟩
  unfold run_assignment run_core
  rw [hsel, except_bind_error]

/-- Claim C7 witness: the amended theorem applied to D7, whose ideal table
has no columns at all. -/
theorem C7_witness :
    (∀ j ∈ List.range' 1 50, D7.ideal j = none) ∧
      (selectIdeals D7 (List.range' 1 50) = Except.error PyError.keyError ∧
        run_assignment D7 = Except.error PyError.dataValidationError) :=
  ⟨by decide, C7_amended D7 (by decide)⟩

theorem mapBodyPre_eq (data : AssignmentData) (x y : ℚ) (st : Option (ℕ × ℚ))
    (p : ℕ × Option ℕ) :
    mapBodyPre data x y st (p, thrAt data p) = mapBody data x y st p := by
  cases hp2 : p.2 with
  | none => simp [mapBodyPre, mapBody, hp2]
  | some j =>
      cases hys : data.ideal j with
      | none => simp [mapBodyPre, mapBody, hp2, hys]
      | some ys =>
          have hthr : thrAt data p = get_threshold (data.train p.1) ys := by
            rw [thrAt, selEntryCol, hp2]
            simp [hys]
          cases hiy : lookupTestY data x ys with
          | none => simp [mapBodyPre, mapBody, hp2, hys, hiy]
          | some iy => simp [mapBodyPre, mapBody, hp2, hys, hiy, hthr]

theorem mapPointPre_from (data : AssignmentData) (x y : ℚ) :
    ∀ (sel : List (ℕ × Option ℕ)) (st : Option (ℕ × ℚ)),
      (sel.map (fun p => (p, thrAt data p))).foldlM (mapBodyPre data x y) st
        = sel.foldlM (mapBody data x y) st
  | [], st => rfl
  | p :: rest, st => by
      rw [List.map_cons, List.foldlM_cons, List.foldlM_cons, mapBodyPre_eq]
      cases mapBody data x y st p with
      | error e => rw [except_bind_error, except_bind_error]
      | ok st2 =>
          rw [except_bind_ok, except_bind_ok]
          exact mapPointPre_from data x y rest st2

theorem mapPointPre_eq (data : AssignmentData) (sel : List (ℕ × Option ℕ))
    (x y : ℚ) :
    mapPointPre data (precomputeThresholds data sel) x y
      = mapPoint data sel x y :=
  mapPointPre_from data x y sel none

theorem mapTestDataPre_from (data : AssignmentData) (sel : List (ℕ × Option ℕ)) :
    ∀ (pts : List (ℚ × ℚ)) (acc : List ResultRow),
      pts.foldlM (fun acc pt => do
          let r ← mapPointPre data (precomputeThresholds data sel) pt.1 pt.2
          match r with
          | some bd => pure (acc ++ [ResultRow.mk pt.1 pt.2 bd.2 bd.1])
          | none => pure acc) acc
        = pts.foldlM (fun acc pt => do
          let r ← mapPoint data sel pt.1 pt.2
          match r with
          | some bd => pure (acc ++ [ResultRow.mk pt.1 pt.2 bd.2 bd.1])
          | none => pure acc) acc
  | [], acc => rfl
  | pt :: rest, acc => by
      rw [List.foldlM_cons, List.foldlM_cons, mapPointPre_eq data sel pt.1 pt.2]
      cases mapPoint data sel pt.1 pt.2 with
      | error e => rfl
      | ok r =>
          cases r with
          | some bd => exact mapTestDataPre_from data sel rest _
          | none => exact mapTestDataPre_from data sel rest _

/-- Claim C9: computing each selection's threshold once after the scan and
reusing it per test point (the spec's prescription) produces, for every
test point and for the whole mapping pass, exactly the same results as the
source's per-point recomputation from the raw series, since get_threshold
is a pure function of the two fixed series. -/
theorem C9_precomputed_threshold_equiv (data : AssignmentData)
    (sel : List (ℕ × Option ℕ)) :
    (∀ x y : ℚ, mapPointPre data (precomputeThresholds data sel) x y
        = mapPoint data sel x y) ∧
      mapTestDataPre data sel = mapTestData data sel :=
  ⟨fun x y => mapPointPre_eq data sel x y,
    mapTestDataPre_from data sel data.test []⟩

/-- Claim C10: every row the mapping loop emits records its test point's
minimal deviation over the qualifying selection entries, its label is the
ideal label of a qualifying entry attaining that minimum, and the recorded
delta_y is at most that entry's threshold. -/
theorem C10_emitted_row_invariant (data : AssignmentData)
    (sel : List (ℕ × Option ℕ)) (rows : List ResultRow)
    (hok : mapTestData data sel = Except.ok rows)
    (hall : ∀ pt ∈ data.test, ∀ p ∈ sel,
      (entryLook data pt.1 p).isSome = true) :
    ∀ row ∈ rows, ∃ pt ∈ data.test, row.x = pt.1 ∧ row.y = pt.2 ∧
      ∃ p ∈ sel, p.2 = some row.ideal_function_no ∧
        qualifiesB data pt.1 pt.2 p = true ∧
        devAt data pt.1 pt.2 p = row.delta_y ∧
        (∃ t, thrAt data p = some t ∧ row.delta_y ≤ t) ∧
        (∀ q ∈ sel, qualifiesB data pt.1 pt.2 q = true →
          row.delta_y ≤ devAt data pt.1 pt.2 q) := by
  intro row hrow
  rw [mapTestData_rows data sel rows hok] at hrow
  obtain ⟨pt, hptmem, hpt⟩ := List.mem_filterMap.mp hrow
  refine ⟨pt, hptmem, ?_⟩
  have hallpt := hall pt hptmem
  have hchar := mapPoint_eq_argmin data sel pt.1 pt.2 hallpt
  cases hmp : mapPoint data sel pt.1 pt.2 with
  | error e =>
      rw [hmp] at hpt
      cases hpt
  | ok r =>
      cases r with
      | none =>
          rw [hmp] at hpt
          cases hpt
      | some bd =>
          rw [hmp] at hpt
          simp only at hpt
          injection hpt with hpt
          subst hpt
          rw [hmp] at hchar
          have h2 := Except.ok.inj hchar
          cases hF : argminFold (devAt data pt.1 pt.2)
              (sel.filter (qualifiesB data pt.1 pt.2)) with
          | none =>
              rw [hF] at h2
              cases h2
          | some bm =>
              rw [hF] at h2
              injection h2 with h2
              have hFne : sel.filter (qualifiesB data pt.1 pt.2) ≠ [] := by
                intro hFe
                rw [hFe] at hF
                cases hF
              obtain ⟨bm2, hfold2, hg2, hmin2, hfind2⟩ :=
                argminFold_spec (devAt data pt.1 pt.2)
                  (sel.filter (qualifiesB data pt.1 pt.2)) hFne
              rw [hF] at hfold2
              have hbm : bm2 = bm := (Option.some.inj hfold2).symm
              subst hbm
              have hmemF := List.mem_of_find?_eq_some hfind2
              have hmemsel := (List.mem_filter.mp hmemF).1
              have hqual := (List.mem_filter.mp hmemF).2
              obtain ⟨j2, hj2⟩ : ∃ j2, bm2.1.2 = some j2 := by
                have h3 := hallpt bm2.1 hmemsel
                cases hp2c : bm2.1.2 with
                | none =>
                    rw [entryLook, selEntryCol, hp2c] at h3
                    simp at h3
                | some j2 => exact ⟨j2, rfl⟩
              refine ⟨rfl, rfl, bm2.1, hmemsel, ?_, hqual, ?_, ?_, ?_⟩
              · rw [h2, projLabel, hj2]
                rfl
              · rw [hg2, h2]
                rfl
              · have hqb := hqual
                unfold qualifiesB at hqb
                cases hthr : thrAt data bm2.1 with
                | none =>
                    rw [hthr] at hqb
                    cases hqb
                | some t =>
                    rw [hthr] at hqb
                    refine ⟨t, rfl, ?_⟩
                    have hle := of_decide_eq_true hqb
                    rw [h2]
                    show bm2.2 ≤ t
                    rw [← hg2]
                    exact hle
              · intro q hq hquala
                have hqF : q ∈ sel.filter (qualifiesB data pt.1 pt.2) :=
                  List.mem_filter.mpr ⟨hq, hquala⟩
                rw [h2]
                show bm2.2 ≤ devAt data pt.1 pt.2 q
                exact hmin2 q hqF

/-- Claim C10 witness: the theorem applied to the concrete data D2 with
selection list S2, whose single test point is emitted with deviation 0 for
ideal label 1. -/
theorem C10_witness :
    mapTestData D2 S2 = Except.ok [ResultRow.mk 0 1 0 1] ∧
      (∀ pt ∈ D2.test, ∀ p ∈ S2, (entryLook D2 pt.1 p).isSome = true) ∧
      ∀ row ∈ [ResultRow.mk 0 1 0 1], ∃ pt ∈ D2.test,
        row.x = pt.1 ∧ row.y = pt.2 ∧
        ∃ p ∈ S2, p.2 = some row.ideal_function_no ∧
          qualifiesB D2 pt.1 pt.2 p = true ∧
          devAt D2 pt.1 pt.2 p = row.delta_y ∧
          (∃ t, thrAt D2 p = some t ∧ row.delta_y ≤ t) ∧
          (∀ q ∈ S2, qualifiesB D2 pt.1 pt.2 q = true →
            row.delta_y ≤ devAt D2 pt.1 pt.2 q) :=
  ⟨by with_unfolding_all decide, by with_unfolding_all decide,
    C10_emitted_row_invariant D2 S2 [ResultRow.mk 0 1 0 1]
      (by with_unfolding_all decide) (by with_unfolding_all decide)⟩

end IUAssign
